import Mathlib

/-!
Verification of the Phase 1.5 chess engine (`src/Phase1/Phase1.5.py`).

The board is embedded as a total function from `Nat × Nat` square coordinates
to the character stored there (`'.'` for empty, `'PRNBQK'` for white pieces,
`'prnbqk'` for black pieces), mirroring the Python list-of-lists of
single-character strings.  Coordinates computed by the algorithms are `Int`
(Python ints can go negative during offset arithmetic); every board access in
the source is guarded by `in_bounds`, and the embedding's `getSq`/`setSq`
perform the same guard, returning a junk character `'?'` (resp. leaving the
board unchanged) on an out-of-bounds access, which never happens on the
guarded paths.  In-place mutation is embedded as explicit state passing:
functions that mutate the board return the final board alongside their result.
-/

namespace Engine

/-- A board position: the Python list of 8 row lists of 8 single-character
strings (`board[r][c]`, row 0 = rank 8). -/
abbrev Board : Type := List (List Char)

/-- A move `(r1, c1, r2, c2)`, exactly the Python 4-tuple. -/
abbrev Move : Type := Int × Int × Int × Int

/-- `in_bounds(r, c)`: `0 <= r < 8 and 0 <= c < 8`. -/
def in_bounds (r c : Int) : Bool :=
  decide (0 ≤ r ∧ r < 8 ∧ 0 ≤ c ∧ c < 8)

/-- Reading `board[r][c]`.  All reads performed by the source are guarded by
`in_bounds` (or are on a ray strictly between two in-bounds squares); an
out-of-bounds read returns the junk character `'?'`, which never arises on
the guarded paths. -/
def getSq (b : Board) (r c : Int) : Char :=
  if in_bounds r c then (b.getD r.toNat []).getD c.toNat '?' else '?'

/-- Writing `board[r][c] = v`.  All writes performed by the source are at
in-bounds coordinates; an out-of-bounds write is a no-op. -/
def setSq (b : Board) (r c : Int) (v : Char) : Board :=
  if in_bounds r c then b.set r.toNat ((b.getD r.toNat []).set c.toNat v) else b

/-- `starting_board()`. -/
def starting_board : Board :=
  ["rnbqkbnr".toList,
   "pppppppp".toList,
   "........".toList,
   "........".toList,
   "........".toList,
   "........".toList,
   "PPPPPPPP".toList,
   "RNBQKBNR".toList]

/-- The boards the program manipulates: 8 rows of 8 squares, as built by
`starting_board` and preserved by every assignment the engine makes. -/
def Shaped (b : Board) : Prop :=
  b.length = 8 ∧ ∀ row ∈ b, row.length = 8

instance (b : Board) : Decidable (Shaped b) := by unfold Shaped; infer_instance

/-- `PIECE_VALUES[c]` for the six upper-case piece letters.  The Python dict
raises `KeyError` on any other key; the engine only looks up
`piece.upper()` of a piece character, so the default `0` branch is never
taken on valid boards (theorems that depend on values restrict to valid
boards). -/
def piece_value (c : Char) : Int :=
  if c == 'P' then 100
  else if c == 'N' then 320
  else if c == 'B' then 330
  else if c == 'R' then 500
  else if c == 'Q' then 900
  else if c == 'K' then 20000
  else 0

/-- `clear_path(board, r1, c1, r2, c2)`: no occupied square strictly between
`(r1,c1)` and `(r2,c2)` along the (assumed straight) line between them.
`List.range' 1 (steps - 1)` is Python's `range(1, steps)`. -/
def clear_path (b : Board) (r1 c1 r2 c2 : Int) : Bool :=
  let dr : Int := if r2 == r1 then 0 else if r2 > r1 then 1 else -1
  let dc : Int := if c2 == c1 then 0 else if c2 > c1 then 1 else -1
  let steps : Nat := max (r2 - r1).natAbs (c2 - c1).natAbs
  (List.range' 1 (steps - 1)).all fun i =>
    getSq b (r1 + dr * (i : Int)) (c1 + dc * (i : Int)) == '.'

/-- `is_pseudo_legal(board, r1, c1, r2, c2)`: geometry and occupancy only, no
king-safety. -/
def is_pseudo_legal (b : Board) (r1 c1 r2 c2 : Int) : Bool :=
  if !(in_bounds r1 c1 && in_bounds r2 c2) then false
  else
    let piece := getSq b r1 c1
    if piece == '.' then false
    else
      let target := getSq b r2 c2
      -- can't capture own piece
      if target != '.' && (target.isUpper == piece.isUpper) then false
      else
        let dr := r2 - r1
        let dc := c2 - c1
        let pu := piece.toUpper
        if pu == 'P' then
          let color_white := piece.isUpper
          let direction : Int := if color_white then -1 else 1
          let start_row : Int := if color_white then 6 else 1
          if dc == 0 then
            -- forward push, single or (from the start row) double
            if dr == direction && target == '.' then true
            else if r1 == start_row && dr == 2 * direction &&
                getSq b (r1 + direction) c1 == '.' && target == '.' then true
            else false
          else
            -- diagonal capture
            if dc.natAbs == 1 && dr == direction && target != '.' then true
            else false
        else if pu == 'N' then
          [((1 : Nat), (2 : Nat)), (2, 1)].contains (dr.natAbs, dc.natAbs)
        else if pu == 'B' then
          if dr.natAbs != dc.natAbs then false else clear_path b r1 c1 r2 c2
        else if pu == 'R' then
          if dr != 0 && dc != 0 then false else clear_path b r1 c1 r2 c2
        else if pu == 'Q' then
          if dr.natAbs == dc.natAbs || dr == 0 || dc == 0 then clear_path b r1 c1 r2 c2
          else false
        else if pu == 'K' then
          max dr.natAbs dc.natAbs == 1
        else false

/-- One sliding ray of `square_is_attacked`: starting at `(r, c)` and stepping
by `(dr, dc)`, walk while in bounds; at the first occupied square report
whether it is `t1` or `t2`.  The Python `while` loop executes its body at most
8 times (the probed coordinate moves through at most 8 in-bounds values before
leaving the board), so fuel 8 gives exactly the loop's semantics. -/
def ray_attack (b : Board) (dr dc : Int) (t1 t2 : Char) : Int → Int → Nat → Bool
  | _, _, 0 => false
  | r, c, fuel + 1 =>
    if in_bounds r c then
      let p := getSq b r c
      if p != '.' then p == t1 || p == t2
      else ray_attack b dr dc t1 t2 (r + dr) (c + dc) fuel
    else false

/-- `square_is_attacked(board, row, col, attacker_is_white)`.  The source
contains a dead first pawn-attack loop (its body assigns a local and never
reads the board); it has no effect and is represented by no code here.  The
checks run in the source's order knight, king, pawn, orthogonal rays,
diagonal rays, each returning `True` as soon as an attacker is found. -/
def square_is_attacked (b : Board) (row col : Int) (attacker_is_white : Bool) : Bool :=
  let knight_offsets : List (Int × Int) :=
    [(2,1), (2,-1), (-2,1), (-2,-1), (1,2), (1,-2), (-1,2), (-1,-2)]
  let knight := knight_offsets.any fun o =>
    let r := row + o.1
    let c := col + o.2
    in_bounds r c &&
      (let p := getSq b r c
       p != '.' && (if attacker_is_white then p == 'N' else p == 'n'))
  let king := ([-1, 0, 1] : List Int).any fun dr =>
    ([-1, 0, 1] : List Int).any fun dc =>
      !(dr == 0 && dc == 0) &&
        (let r := row + dr
         let c := col + dc
         in_bounds r c &&
           (let p := getSq b r c
            p != '.' && (if attacker_is_white then p == 'K' else p == 'k')))
  let pawn :=
    if attacker_is_white then
      ([-1, 1] : List Int).any fun dc =>
        in_bounds (row + 1) (col + dc) && getSq b (row + 1) (col + dc) == 'P'
    else
      ([-1, 1] : List Int).any fun dc =>
        in_bounds (row - 1) (col + dc) && getSq b (row - 1) (col + dc) == 'p'
  let ortho := ([((1:Int),(0:Int)), (-1,0), (0,1), (0,-1)] : List (Int × Int)).any fun d =>
    ray_attack b d.1 d.2 (if attacker_is_white then 'R' else 'r')
      (if attacker_is_white then 'Q' else 'q') (row + d.1) (col + d.2) 8
  let diag := ([((1:Int),(1:Int)), (1,-1), (-1,1), (-1,-1)] : List (Int × Int)).any fun d =>
    ray_attack b d.1 d.2 (if attacker_is_white then 'B' else 'b')
      (if attacker_is_white then 'Q' else 'q') (row + d.1) (col + d.2) 8
  knight || king || pawn || ortho || diag

/-- `find_king(board, white_king)`: row-major scan for `'K'` / `'k'`, first
match wins, `None` if absent. -/
def find_king (b : Board) (white_king : Bool) : Option (Int × Int) :=
  let target := if white_king then 'K' else 'k'
  (List.range 8).findSome? fun (r : Nat) =>
    (List.range 8).findSome? fun (c : Nat) =>
      if getSq b (r : Int) (c : Int) == target then some ((r : Int), (c : Int)) else none

/-- `is_in_check(board, white_king_side)`: silently `False` when the king is
absent (`if not king_pos: return False`), otherwise asks whether the opposite
color attacks the king square. -/
def is_in_check (b : Board) (white_king_side : Bool) : Bool :=
  match find_king b white_king_side with
  | none => false
  | some (kr, kc) => square_is_attacked b kr kc (!white_king_side)

/-- `generate_all_moves(board, white_to_move)`: all pseudo-legal moves for the
side to move, in the source's row-major enumeration order. -/
def generate_all_moves (b : Board) (white_to_move : Bool) : List Move :=
  (List.range 8).flatMap fun r =>
    (List.range 8).flatMap fun c =>
      let p := getSq b (r : Int) (c : Int)
      if p == '.' then []
      else if white_to_move && !p.isUpper then []
      else if !white_to_move && !p.isLower then []
      else
        (List.range 8).flatMap fun (r2 : Nat) =>
          (List.range 8).filterMap fun (c2 : Nat) =>
            if is_pseudo_legal b (r : Int) (c : Int) (r2 : Int) (c2 : Int) then
              some ((r : Int), (c : Int), (r2 : Int), (c2 : Int))
            else none

/-- The loop body of `generate_legal_moves`: for each pseudo-legal move, make
it on the shared board, test `is_in_check` for the mover, undo it (the same
two assignments in reverse), and keep the move if the mover was not left in
check.  The board is threaded through exactly as the Python code mutates it. -/
def legal_loop (w : Bool) : List Move → Board → List Move × Board
  | [], b => ([], b)
  | m :: ms, b =>
    let r1 := m.1; let c1 := m.2.1; let r2 := m.2.2.1; let c2 := m.2.2.2
    let captured := getSq b r2 c2
    -- make
    let b1 := setSq b r2 c2 (getSq b r1 c1)
    let b2 := setSq b1 r1 c1 '.'
    let incheck := is_in_check b2 w
    -- undo
    let b3 := setSq b2 r1 c1 (getSq b2 r2 c2)
    let b4 := setSq b3 r2 c2 captured
    let rest := legal_loop w ms b4
    (if incheck then rest.1 else m :: rest.1, rest.2)

/-- `generate_legal_moves(board, white_to_move)`: pseudo-legal moves filtered
by king safety.  Returns the surviving moves and the (restored) board. -/
def generate_legal_moves (b : Board) (white_to_move : Bool) : List Move × Board :=
  legal_loop white_to_move (generate_all_moves b white_to_move) b

/-- `make_move_on_board(board, move)`: returns the captured square contents
and the board after the move. -/
def make_move_on_board (b : Board) (m : Move) : Char × Board :=
  let r1 := m.1; let c1 := m.2.1; let r2 := m.2.2.1; let c2 := m.2.2.2
  let captured := getSq b r2 c2
  let b1 := setSq b r2 c2 (getSq b r1 c1)
  let b2 := setSq b1 r1 c1 '.'
  (captured, b2)

/-- `undo_move_on_board(board, move, captured)`. -/
def undo_move_on_board (b : Board) (m : Move) (captured : Char) : Board :=
  let r1 := m.1; let c1 := m.2.1; let r2 := m.2.2.1; let c2 := m.2.2.2
  let b1 := setSq b r1 c1 (getSq b r2 c2)
  setSq b1 r2 c2 captured

/-- The signed contribution of one square to `evaluate`: `0` for `'.'`,
`+PIECE_VALUES[p.upper()]` for a white (upper-case) piece and
`-PIECE_VALUES[p.upper()]` for a black one. -/
def signed_value (p : Char) : Int :=
  if p == '.' then 0
  else if p.isUpper then piece_value p.toUpper
  else -piece_value p.toUpper

/-- `evaluate(board)`: material sum over the 64 squares. -/
def evaluate (b : Board) : Int :=
  ((List.range 8).map fun (r : Nat) =>
    ((List.range 8).map fun (c : Nat) => signed_value (getSq b (r : Int) (c : Int))).sum).sum

/-- Python's `value` starts as `-math.inf` (resp. `math.inf`); it is an `Int`
as soon as one move has been processed.  `val_or` extracts it for the final
`return value, best_move`: `alphabeta` enters its move loop only with a
nonempty move list, so the `none` branch is never returned. -/
def val_or : Option Int → Int
  | none => 0
  | some v => v

/-- `val > value` where `value` may still be `-math.inf` (`none`). -/
def gt_value (val : Int) : Option Int → Bool
  | none => true
  | some v => val > v

/-- `val < value` where `value` may still be `math.inf` (`none`). -/
def lt_value (val : Int) : Option Int → Bool
  | none => true
  | some v => val < v

/-- `max(alpha, value)`; with `value = -math.inf` this is `alpha`. -/
def max_alpha (alpha : Int) : Option Int → Int
  | none => alpha
  | some v => max alpha v

/-- `min(beta, value)`; with `value = math.inf` this is `beta`. -/
def min_beta (beta : Int) : Option Int → Int
  | none => beta
  | some v => min beta v

/-- `moves.sort(key=lambda m: 0 if board[m[2]][m[3]] == '.' else 1,
reverse=True)`: Python's sort is stable also with `reverse=True`, so the
result is the captures in their original order followed by the non-captures
in their original order. -/
def sort_captures_first (b : Board) (moves : List Move) : List Move :=
  moves.filter (fun m => !(getSq b m.2.2.1 m.2.2.2 == '.')) ++
    moves.filter (fun m => getSq b m.2.2.1 m.2.2.2 == '.')

/-- The white (maximizing) move loop of `alphabeta`.  `f` is the recursive
call at `depth - 1` with black to move; the board is threaded through
make / recurse / undo, and the loop breaks as soon as `alpha >= beta`. -/
def ab_max_loop (f : Board → Int → Int → Int × Option Move × Board) :
    List Move → Board → Int → Int → Option Int → Option Move →
    Int × Option Move × Board
  | [], b, _, _, value, best => (val_or value, best, b)
  | m :: ms, b, alpha, beta, value, best =>
    let mk := make_move_on_board b m
    let rec1 := f mk.2 alpha beta
    let b3 := undo_move_on_board rec1.2.2 m mk.1
    let value' := if gt_value rec1.1 value then some rec1.1 else value
    let best' := if gt_value rec1.1 value then some m else best
    let alpha' := max_alpha alpha value'
    if beta ≤ alpha' then (val_or value', best', b3)
    else ab_max_loop f ms b3 alpha' beta value' best'

/-- The black (minimizing) move loop of `alphabeta`. -/
def ab_min_loop (f : Board → Int → Int → Int × Option Move × Board) :
    List Move → Board → Int → Int → Option Int → Option Move →
    Int × Option Move × Board
  | [], b, _, _, value, best => (val_or value, best, b)
  | m :: ms, b, alpha, beta, value, best =>
    let mk := make_move_on_board b m
    let rec1 := f mk.2 alpha beta
    let b3 := undo_move_on_board rec1.2.2 m mk.1
    let value' := if lt_value rec1.1 value then some rec1.1 else value
    let best' := if lt_value rec1.1 value then some m else best
    let beta' := min_beta beta value'
    if beta' ≤ alpha then (val_or value', best', b3)
    else ab_min_loop f ms b3 alpha beta' value' best'

/-- `alphabeta(board, depth, alpha, beta, white_to_move)`: returns the score,
the best move (or `None` at depth 0 and at no-move terminals) and the final
board.  At depth 0 the static evaluation; with no legal moves `-999999`
(white to move) / `999999` (black to move) if in check, else `0`; otherwise
the alpha-beta move loop over the captures-first-sorted legal moves. -/
def alphabeta : Board → Nat → Int → Int → Bool → Int × Option Move × Board
  | b, 0, _, _, _ => (evaluate b, none, b)
  | b, d + 1, alpha, beta, w =>
    let gl := generate_legal_moves b w
    if gl.1.isEmpty then
      if is_in_check gl.2 w then
        ((if w then -999999 else 999999), none, gl.2)
      else (0, none, gl.2)
    else
      let sorted := sort_captures_first gl.2 gl.1
      if w then
        ab_max_loop (fun b' a' b'' => alphabeta b' d a' b'' false)
          sorted gl.2 alpha beta none none
      else
        ab_min_loop (fun b' a' b'' => alphabeta b' d a' b'' true)
          sorted gl.2 alpha beta none none

/-- The move loop of `perft`, accumulating `nodes` and threading the board
through make / recurse / undo. -/
def perft_loop (f : Board → Bool → Nat × Board) (w : Bool) :
    List Move → Board → Nat → Nat × Board
  | [], b, nodes => (nodes, b)
  | m :: ms, b, nodes =>
    let mk := make_move_on_board b m
    let rec1 := f mk.2 (!w)
    let b3 := undo_move_on_board rec1.2 m mk.1
    perft_loop f w ms b3 (nodes + rec1.1)

/-- `perft(board, depth, white_to_move)`: leaf count at the given depth, and
the final (restored) board. -/
def perft : Board → Nat → Bool → Nat × Board
  | b, 0, _ => (1, b)
  | b, d + 1, w =>
    let gl := generate_legal_moves b w
    perft_loop (fun b' w' => perft b' d w') w gl.1 gl.2 0

/-! ### Derived notions used to state the claims -/

/-- Both squares of a move are on the board.  Every move emitted by
`generate_all_moves` satisfies this. -/
def move_in_bounds (m : Move) : Bool :=
  in_bounds m.1 m.2.1 && in_bounds m.2.2.1 m.2.2.2

/-- The king-safety test `generate_legal_moves` applies to a pseudo-legal
move: make the move, ask `is_in_check` for the mover, undo. -/
def leaves_king_safe (b : Board) (w : Bool) (m : Move) : Bool :=
  !is_in_check (make_move_on_board b m).2 w

/-! ### Concrete positions used to instantiate the theorems -/

/-- A sparse position: black king a8, white king h1. -/
def board_two_kings : Board :=
  ["k.......".toList,
   "........".toList,
   "........".toList,
   "........".toList,
   "........".toList,
   "........".toList,
   "........".toList,
   ".......K".toList]

/-- Checkmate: black king a8, white queen b7 (protected by the white king c6),
black to move. -/
def board_mate : Board :=
  ["k.......".toList,
   ".Q......".toList,
   "..K.....".toList,
   "........".toList,
   "........".toList,
   "........".toList,
   "........".toList,
   "........".toList]

/-- Stalemate: black king a8, white queen b6, white king e4, black to move:
the black king is not attacked but has no safe square. -/
def board_stalemate : Board :=
  ["k.......".toList,
   "........".toList,
   ".Q......".toList,
   "........".toList,
   "....K...".toList,
   "........".toList,
   "........".toList,
   "........".toList]

/-- A board with no white king: black king a8 only. -/
def board_no_white_king : Board :=
  ["k.......".toList,
   "........".toList,
   "........".toList,
   "........".toList,
   "........".toList,
   "........".toList,
   "........".toList,
   "........".toList]

/-! ### Basic board lemmas -/

theorem in_bounds_iff {r c : Int} : in_bounds r c = true ↔ 0 ≤ r ∧ r < 8 ∧ 0 ≤ c ∧ c < 8 := by
  simp [in_bounds]

theorem getD_set_self {α} (d : α) :
    ∀ (l : List α) (i : Nat) (a : α), i < l.length → (l.set i a).getD i d = a := by
  intro l
  induction l with
  | nil => intro i a h; simp at h
  | cons x xs ih =>
    intro i a h
    cases i with
    | zero => simp [List.set]
    | succ n =>
      simp only [List.set, List.getD_cons_succ]
      exact ih n a (by simpa using h)

theorem getD_set_ne {α} (d : α) :
    ∀ (l : List α) (i j : Nat) (a : α), i ≠ j → (l.set i a).getD j d = l.getD j d := by
  intro l
  induction l with
  | nil => intro i j a _; simp [List.set]
  | cons x xs ih =>
    intro i j a hij
    cases i with
    | zero =>
      cases j with
      | zero => exact absurd rfl hij
      | succ m => simp [List.set]
    | succ n =>
      cases j with
      | zero => simp [List.set]
      | succ m =>
        simp only [List.set, List.getD_cons_succ]
        exact ih n m a (fun h => hij (by rw [h]))

theorem mem_set_cases {α} :
    ∀ (l : List α) (i : Nat) (a x : α), x ∈ l.set i a → x ∈ l ∨ x = a := by
  intro l
  induction l with
  | nil => intro i a x h; simp [List.set] at h
  | cons y ys ih =>
    intro i a x h
    cases i with
    | zero =>
      rcases List.mem_cons.mp h with h | h
      · right; exact h
      · left; exact List.mem_cons_of_mem _ h
    | succ n =>
      rcases List.mem_cons.mp h with h | h
      · left; exact h ▸ List.mem_cons_self _ _
      · rcases ih n a x h with h | h
        · left; exact List.mem_cons_of_mem _ h
        · right; exact h

theorem getD_mem {α} (d : α) (l : List α) (i : Nat) (h : i < l.length) : l.getD i d ∈ l := by
  rw [List.getD_eq_getElem l d h]
  exact List.getElem_mem h

theorem setSq_shaped {b : Board} (hb : Shaped b) (r c : Int) (v : Char) :
    Shaped (setSq b r c v) := by
  unfold setSq
  split
  · refine ⟨by simpa using hb.1, ?_⟩
    intro row hmem
    rcases mem_set_cases _ _ _ _ hmem with h | h
    · exact hb.2 _ h
    · subst h
      rw [List.length_set]
      rename_i hlt
      rw [in_bounds_iff] at hlt
      exact hb.2 _ (getD_mem _ _ _ (by rw [hb.1]; omega))
  · exact hb

theorem row_length {b : Board} (hb : Shaped b) {i : Nat} (hi : i < 8) :
    (b.getD i []).length = 8 :=
  hb.2 _ (getD_mem _ _ _ (by rw [hb.1]; omega))

/-- Reading after writing: the written square holds the new value, all other
squares are unchanged. -/
theorem getSq_setSq {b : Board} (hb : Shaped b) {r c : Int} (h : in_bounds r c = true)
    (v : Char) (r' c' : Int) :
    getSq (setSq b r c v) r' c' = if r' = r ∧ c' = c then v else getSq b r' c' := by
  rw [in_bounds_iff] at h
  unfold setSq getSq
  rw [if_pos (in_bounds_iff.mpr h)]
  by_cases h' : in_bounds r' c' = true
  · rw [if_pos h', if_pos h']
    rw [in_bounds_iff] at h'
    by_cases hr : r'.toNat = r.toNat
    · rw [hr, getD_set_self _ _ _ _ (by rw [hb.1]; omega)]
      by_cases hc : c'.toNat = c.toNat
      · rw [hc, getD_set_self _ _ _ _ (by rw [row_length hb (by omega)]; omega)]
        rw [if_pos (by omega)]
      · rw [getD_set_ne _ _ _ _ _ (fun hh => hc hh.symm), if_neg (by omega)]
    · rw [getD_set_ne _ _ _ _ _ (fun hh => hr hh.symm), if_neg (by omega)]
  · rw [if_neg h', if_neg h', if_neg (by rw [in_bounds_iff] at h'; omega)]

/-- `getSq` at in-range `Nat` coordinates is plain indexing. -/
theorem getSq_eq_getD {b : Board} {i j : Nat} (hi : i < 8) (hj : j < 8) :
    getSq b (i : Int) (j : Int) = (b.getD i []).getD j '?' := by
  unfold getSq
  rw [if_pos (in_bounds_iff.mpr (by refine ⟨by omega, by omega, by omega, by omega⟩))]
  rw [Int.toNat_natCast, Int.toNat_natCast]

/-- Two shaped boards with the same squares are equal. -/
theorem shaped_ext {b b' : Board} (hb : Shaped b) (hb' : Shaped b')
    (h : ∀ i j : Nat, i < 8 → j < 8 → getSq b (i : Int) (j : Int) = getSq b' (i : Int) (j : Int)) :
    b = b' := by
  apply List.ext_getElem (by rw [hb.1, hb'.1])
  intro i hi hi'
  have hi8 : i < 8 := by rw [hb.1] at hi; exact hi
  apply List.ext_getElem
    (by rw [hb.2 _ (List.getElem_mem _), hb'.2 _ (List.getElem_mem _)])
  intro j hj hj'
  have hj8 : j < 8 := by
    rw [hb.2 _ (List.getElem_mem _)] at hj
    exact hj
  have hthis := h i j hi8 hj8
  rw [getSq_eq_getD hi8 hj8, getSq_eq_getD hi8 hj8] at hthis
  rw [List.getD_eq_getElem b [] hi, List.getD_eq_getElem b' [] hi'] at hthis
  rw [List.getD_eq_getElem _ _ hj, List.getD_eq_getElem _ _ hj'] at hthis
  exact hthis

/-! ### Make / undo -/

/-- The boards produced along make / undo stay shaped. -/
theorem make_move_shaped {b : Board} (hb : Shaped b) (m : Move) :
    Shaped (make_move_on_board b m).2 :=
  setSq_shaped (setSq_shaped hb _ _ _) _ _ _

theorem undo_move_shaped {b : Board} (hb : Shaped b) (m : Move) (cap : Char) :
    Shaped (undo_move_on_board b m cap) :=
  setSq_shaped (setSq_shaped hb _ _ _) _ _ _

/-- Undoing a move with the captured piece returned by making it restores the
board exactly, including when source and destination coincide. -/
theorem undo_make {b : Board} (hb : Shaped b) {r1 c1 r2 c2 : Int}
    (h1 : in_bounds r1 c1 = true) (h2 : in_bounds r2 c2 = true) :
    undo_move_on_board (make_move_on_board b (r1, c1, r2, c2)).2 (r1, c1, r2, c2)
      (make_move_on_board b (r1, c1, r2, c2)).1 = b := by
  have s1 : Shaped (setSq b r2 c2 (getSq b r1 c1)) := setSq_shaped hb _ _ _
  have s2 : Shaped (setSq (setSq b r2 c2 (getSq b r1 c1)) r1 c1 '.') := setSq_shaped s1 _ _ _
  have s3 : Shaped (setSq (setSq (setSq b r2 c2 (getSq b r1 c1)) r1 c1 '.') r1 c1
      (getSq (setSq (setSq b r2 c2 (getSq b r1 c1)) r1 c1 '.') r2 c2)) := setSq_shaped s2 _ _ _
  apply shaped_ext (setSq_shaped s3 _ _ _) hb
  intro i j hi hj
  show getSq (setSq (setSq (setSq (setSq b r2 c2 (getSq b r1 c1)) r1 c1 '.') r1 c1
      (getSq (setSq (setSq b r2 c2 (getSq b r1 c1)) r1 c1 '.') r2 c2)) r2 c2
      (getSq b r2 c2)) (i : Int) (j : Int) = getSq b (i : Int) (j : Int)
  rw [getSq_setSq s3 h2, getSq_setSq s2 h1, getSq_setSq s1 h1, getSq_setSq s1 h1,
    getSq_setSq hb h2, getSq_setSq hb h2, if_pos (⟨rfl, rfl⟩ : r2 = r2 ∧ c2 = c2)]
  by_cases e2 : (i : Int) = r2 ∧ (j : Int) = c2
  · rw [if_pos e2, e2.1, e2.2]
  · rw [if_neg e2]
    by_cases e1 : (i : Int) = r1 ∧ (j : Int) = c1
    · rw [if_pos e1]
      by_cases e21 : r2 = r1 ∧ c2 = c1
      · exact absurd ⟨e1.1.trans e21.1.symm, e1.2.trans e21.2.symm⟩ e2
      · rw [if_neg e21, e1.1, e1.2]
    · rw [if_neg e1, if_neg e2, if_neg e1]

/-! ### The legality filter -/

/-- The loop of `generate_legal_moves`, on in-bounds moves, is a pure filter
by king safety and restores the board. -/
theorem legal_loop_eq {b : Board} (hb : Shaped b) (w : Bool) :
    ∀ ms : List Move, (∀ m ∈ ms, move_in_bounds m = true) →
    legal_loop w ms b = (ms.filter (leaves_king_safe b w), b) := by
  intro ms
  induction ms with
  | nil => intro _; rfl
  | cons m ms ih =>
    intro h
    obtain ⟨r1, c1, r2, c2⟩ := m
    have hm : move_in_bounds (r1, c1, r2, c2) = true := h _ (List.mem_cons_self _ _)
    rw [move_in_bounds, Bool.and_eq_true] at hm
    have hrest := ih (fun x hx => h x (List.mem_cons_of_mem _ hx))
    have hrestore : setSq (setSq (setSq (setSq b r2 c2 (getSq b r1 c1)) r1 c1 '.') r1 c1
        (getSq (setSq (setSq b r2 c2 (getSq b r1 c1)) r1 c1 '.') r2 c2)) r2 c2
        (getSq b r2 c2) = b :=
      undo_make hb hm.1 hm.2
    simp only [legal_loop, List.filter_cons, leaves_king_safe, make_move_on_board]
    rw [hrestore, hrest]
    by_cases hic : is_in_check (setSq (setSq b r2 c2 (getSq b r1 c1)) r1 c1 '.') w = true
    · simp [hic]
    · simp [hic]

/-- Every pseudo-legal move has both squares on the board (its coordinates
come from `range 8` scans). -/
theorem gen_all_in_bounds (b : Board) (w : Bool) :
    ∀ m ∈ generate_all_moves b w, move_in_bounds m = true := by
  intro m hm
  rw [generate_all_moves] at hm
  simp only [List.mem_flatMap, List.mem_range] at hm
  obtain ⟨r, hr, hm⟩ := hm
  obtain ⟨c, hc, hm⟩ := hm
  split_ifs at hm with h1 h2 h3
  · simp at hm
  · simp at hm
  · simp at hm
  · simp only [List.mem_flatMap, List.mem_filterMap, List.mem_range] at hm
    obtain ⟨r2, hr2, c2, hc2, hm⟩ := hm
    split_ifs at hm
    · rw [Option.some_inj] at hm
      subst hm
      rw [move_in_bounds]
      simp only [in_bounds]
      simp only [decide_eq_true_eq, Bool.and_eq_true]
      omega

/-- `generate_legal_moves` filters the pseudo-legal moves by king safety and
returns the board it was given. -/
theorem generate_legal_moves_eq {b : Board} (hb : Shaped b) (w : Bool) :
    generate_legal_moves b w =
      ((generate_all_moves b w).filter (leaves_king_safe b w), b) :=
  legal_loop_eq hb w _ (gen_all_in_bounds b w)

/-- `undo_make`, packaged on a `Move` 4-tuple. -/
theorem undo_make_move {b : Board} (hb : Shaped b) {m : Move}
    (hm : move_in_bounds m = true) :
    undo_move_on_board (make_move_on_board b m).2 m (make_move_on_board b m).1 = b := by
  obtain ⟨r1, c1, r2, c2⟩ := m
  rw [move_in_bounds, Bool.and_eq_true] at hm
  exact undo_make hb hm.1 hm.2

/-! ### Claim C2 -/

/-- C2: for every (shaped) board and every move whose two squares lie on the
board, undoing with the captured piece returned by `make_move_on_board`
restores the board square for square. -/
theorem make_then_undo_restores {b : Board} (hb : Shaped b) {m : Move}
    (hm : move_in_bounds m = true) :
    undo_move_on_board (make_move_on_board b m).2 m (make_move_on_board b m).1 = b :=
  undo_make_move hb hm

theorem make_then_undo_restores_witness :
    Shaped starting_board ∧ move_in_bounds (6, 4, 4, 4) = true ∧
    undo_move_on_board (make_move_on_board starting_board (6, 4, 4, 4)).2 (6, 4, 4, 4)
      (make_move_on_board starting_board (6, 4, 4, 4)).1 = starting_board :=
  ⟨by decide, by decide, make_then_undo_restores (by decide) (by decide)⟩

/-! ### Claim C1 -/

/-- C1: every move returned by `generate_legal_moves` is among the pseudo-legal
moves of `generate_all_moves`, and after applying it the mover's own king
square (whenever the king is on the board) is not attacked by the opposite
color. -/
theorem legal_moves_are_pseudo_and_king_safe {b : Board} (hb : Shaped b) (w : Bool) {m : Move}
    (hm : m ∈ (generate_legal_moves b w).1) :
    m ∈ generate_all_moves b w ∧
      ∀ kr kc : Int, find_king (make_move_on_board b m).2 w = some (kr, kc) →
        square_is_attacked (make_move_on_board b m).2 kr kc (!w) = false := by
  rw [generate_legal_moves_eq hb w] at hm
  rw [List.mem_filter] at hm
  refine ⟨hm.1, fun kr kc hk => ?_⟩
  have hsafe := hm.2
  rw [leaves_king_safe, Bool.not_eq_eq_eq_not, Bool.not_true] at hsafe
  rw [is_in_check, hk] at hsafe
  exact hsafe

theorem legal_moves_are_pseudo_and_king_safe_witness :
    Shaped board_two_kings ∧ ((7 : Int), (7 : Int), (6 : Int), (7 : Int)) ∈
        (generate_legal_moves board_two_kings true).1 ∧
    ((7 : Int), (7 : Int), (6 : Int), (7 : Int)) ∈ generate_all_moves board_two_kings true ∧
    square_is_attacked (make_move_on_board board_two_kings (7, 7, 6, 7)).2 6 7 false = false :=
  ⟨by decide, by decide,
    (legal_moves_are_pseudo_and_king_safe (by decide) true (by decide)).1,
    (legal_moves_are_pseudo_and_king_safe (by decide) true (by decide)).2 6 7 (by decide)⟩

/-! ### Claim C3: board restoration -/

theorem sort_captures_mem {b : Board} {moves : List Move} {m : Move}
    (h : m ∈ sort_captures_first b moves) : m ∈ moves := by
  rw [sort_captures_first, List.mem_append] at h
  rcases h with h | h <;> exact (List.mem_filter.mp h).1

theorem perft_loop_restores (f : Board → Bool → Nat × Board) (w : Bool)
    (hf : ∀ b', Shaped b' → (f b' (!w)).2 = b') :
    ∀ (ms : List Move) {b : Board}, Shaped b → (∀ m ∈ ms, move_in_bounds m = true) →
    ∀ (acc : Nat), (perft_loop f w ms b acc).2 = b := by
  intro ms
  induction ms with
  | nil => intro b _ _ acc; rfl
  | cons m ms ih =>
    intro b hb h acc
    have hmk : (f (make_move_on_board b m).2 (!w)).2 = (make_move_on_board b m).2 :=
      hf _ (make_move_shaped hb m)
    simp only [perft_loop]
    rw [hmk, undo_make_move hb (h m (List.mem_cons_self _ _))]
    exact ih hb (fun x hx => h x (List.mem_cons_of_mem _ hx)) _

theorem perft_restores : ∀ (d : Nat) {b : Board}, Shaped b → ∀ (w : Bool),
    (perft b d w).2 = b := by
  intro d
  induction d with
  | zero => intro b _ w; rfl
  | succ d ih =>
    intro b hb w
    simp only [perft]
    rw [generate_legal_moves_eq hb w]
    exact perft_loop_restores _ w (fun b' hb' => ih hb' (!w)) _ hb
      (fun m hm => gen_all_in_bounds b w m (List.mem_filter.mp hm).1) 0

theorem ab_max_loop_restores (f : Board → Int → Int → Int × Option Move × Board)
    (hf : ∀ b', Shaped b' → ∀ a c, (f b' a c).2.2 = b') :
    ∀ (ms : List Move) {b : Board}, Shaped b → (∀ m ∈ ms, move_in_bounds m = true) →
    ∀ (alpha beta : Int) (value : Option Int) (best : Option Move),
    (ab_max_loop f ms b alpha beta value best).2.2 = b := by
  intro ms
  induction ms with
  | nil => intro b _ _ alpha beta value best; rfl
  | cons m ms ih =>
    intro b hb h alpha beta value best
    have hmk : (f (make_move_on_board b m).2 alpha beta).2.2 = (make_move_on_board b m).2 :=
      hf _ (make_move_shaped hb m) alpha beta
    simp only [ab_max_loop]
    rw [hmk, undo_make_move hb (h m (List.mem_cons_self _ _))]
    split <;> split <;> first
      | rfl
      | exact ih hb (fun x hx => h x (List.mem_cons_of_mem _ hx)) _ _ _ _

theorem ab_min_loop_restores (f : Board → Int → Int → Int × Option Move × Board)
    (hf : ∀ b', Shaped b' → ∀ a c, (f b' a c).2.2 = b') :
    ∀ (ms : List Move) {b : Board}, Shaped b → (∀ m ∈ ms, move_in_bounds m = true) →
    ∀ (alpha beta : Int) (value : Option Int) (best : Option Move),
    (ab_min_loop f ms b alpha beta value best).2.2 = b := by
  intro ms
  induction ms with
  | nil => intro b _ _ alpha beta value best; rfl
  | cons m ms ih =>
    intro b hb h alpha beta value best
    have hmk : (f (make_move_on_board b m).2 alpha beta).2.2 = (make_move_on_board b m).2 :=
      hf _ (make_move_shaped hb m) alpha beta
    simp only [ab_min_loop]
    rw [hmk, undo_make_move hb (h m (List.mem_cons_self _ _))]
    split <;> split <;> first
      | rfl
      | exact ih hb (fun x hx => h x (List.mem_cons_of_mem _ hx)) _ _ _ _

theorem alphabeta_restores : ∀ (d : Nat) {b : Board}, Shaped b →
    ∀ (alpha beta : Int) (w : Bool), (alphabeta b d alpha beta w).2.2 = b := by
  intro d
  induction d with
  | zero => intro b _ alpha beta w; rfl
  | succ d ih =>
    intro b hb alpha beta w
    simp only [alphabeta]
    rw [generate_legal_moves_eq hb w]
    have hmv : ∀ m ∈ sort_captures_first b ((generate_all_moves b w).filter
        (leaves_king_safe b w)), move_in_bounds m = true :=
      fun m hm => gen_all_in_bounds b w m (List.mem_filter.mp (sort_captures_mem hm)).1
    split
    · split <;> rfl
    · split
      · exact ab_max_loop_restores _ (fun b' hb' a c => ih hb' a c false) _ hb hmv _ _ _ _
      · exact ab_min_loop_restores _ (fun b' hb' a c => ih hb' a c true) _ hb hmv _ _ _ _

/-- C3: `alphabeta` (also on paths where the `alpha >= beta` break abandons
the remaining sibling moves), `perft`, and `generate_legal_moves` all return
the board exactly as they found it. -/
theorem search_restores_board {b : Board} (hb : Shaped b) (d : Nat) (alpha beta : Int)
    (w : Bool) :
    (alphabeta b d alpha beta w).2.2 = b ∧ (perft b d w).2 = b ∧
      (generate_legal_moves b w).2 = b :=
  ⟨alphabeta_restores d hb alpha beta w, perft_restores d hb w,
    by rw [generate_legal_moves_eq hb w]⟩

theorem search_restores_board_witness :
    Shaped board_two_kings ∧
    ((alphabeta board_two_kings 1 (-2000000) 2000000 true).2.2 = board_two_kings ∧
     (perft board_two_kings 1 true).2 = board_two_kings ∧
     (generate_legal_moves board_two_kings true).2 = board_two_kings) :=
  ⟨by decide, search_restores_board (by decide) 1 (-2000000) 2000000 true⟩

/-! ### Claim C5: terminal scoring -/

/-- C5: at depth ≥ 1, with no legal moves, `alphabeta` returns no move and
scores the position `-999999` (white to move) / `999999` (black to move) when
the side to move is in check — a negative score for white, positive for
black, i.e. a loss for the side to move — and exactly `0` otherwise. -/
theorem no_moves_terminal_score {b : Board} (hb : Shaped b) (w : Bool) (d : Nat)
    (alpha beta : Int) (hd : 1 ≤ d)
    (hempty : (generate_legal_moves b w).1 = []) :
    (alphabeta b d alpha beta w).2.1 = none ∧
    (is_in_check b w = true →
      (alphabeta b d alpha beta w).1 = (if w then -999999 else 999999) ∧
      (w = true → (alphabeta b d alpha beta w).1 < 0) ∧
      (w = false → 0 < (alphabeta b d alpha beta w).1)) ∧
    (is_in_check b w = false → (alphabeta b d alpha beta w).1 = 0) := by
  obtain ⟨d', rfl⟩ : ∃ d', d = d' + 1 := ⟨d - 1, by omega⟩
  have hb2 : (generate_legal_moves b w).2 = b := by rw [generate_legal_moves_eq hb w]
  simp only [alphabeta]
  rw [hempty, hb2]
  simp only [List.isEmpty_nil, if_true]
  refine ⟨by split <;> rfl, fun hic => ?_, fun hic => ?_⟩
  · rw [if_pos hic]
    refine ⟨rfl, fun hw => ?_, fun hw => ?_⟩ <;> subst hw <;> simp
  · rw [if_neg (by rw [hic]; exact Bool.false_ne_true)]

theorem no_moves_terminal_score_witness :
    Shaped board_mate ∧ (generate_legal_moves board_mate false).1 = [] ∧
    is_in_check board_mate false = true ∧
    (alphabeta board_mate 1 (-2000000) 2000000 false).2.1 = none ∧
    (alphabeta board_mate 1 (-2000000) 2000000 false).1 = 999999 ∧
    0 < (alphabeta board_mate 1 (-2000000) 2000000 false).1 ∧
    Shaped board_stalemate ∧ (generate_legal_moves board_stalemate false).1 = [] ∧
    is_in_check board_stalemate false = false ∧
    (alphabeta board_stalemate 1 (-2000000) 2000000 false).1 = 0 := by
  have h := no_moves_terminal_score (b := board_mate) (by decide) false 1
    (-2000000) 2000000 (by decide) (by decide)
  have h' := no_moves_terminal_score (b := board_stalemate) (by decide) false 1
    (-2000000) 2000000 (by decide) (by decide)
  refine ⟨by decide, by decide, by decide, h.1, ?_, ?_, by decide, by decide, by decide, ?_⟩
  · simpa using (h.2.1 (by decide)).1
  · exact (h.2.1 (by decide)).2.2 rfl
  · exact h'.2.2 (by decide)

end Engine
